import Mathlib

/-!
Verification development for the f9 file backend core: path safety,
local store operations, the reentrant process lock, and the Git sync
engine (push/pull/session/conflict protocols).

The definitions below are shallow embeddings of the Python source
(`local.py`, `validation.py`, `utils.py`, `locking.py`, `git_backend.py`).
Filesystem state is modelled as an association list from absolute
component paths to entries; `Path.resolve` is modelled as an arbitrary
function `res` on component lists (symlink layouts vary), with the
symlink-free lexical resolver `resolveDotDot` available for concrete
evaluation.
-/

deriving instance DecidableEq for Except

namespace F9

/-- Kinds of `InvalidOperationError`, after the classmethod constructors in
`interfaces.py`. -/
inductive ErrKind
  | pathOutsideRoot
  | emptyPath
  | rootPathNotAllowed
  | cannotReadDirectory
  | cannotUpdateDirectory
  | cannotOverwriteFileWithDirectory
  | cannotOverwriteDirectoryWithFile
  | directoryNotEmpty
  | parentNotDirectory
deriving DecidableEq, Repr

/-- Errors surfaced by backend operations.  `notFound`, `alreadyExists` and
`invalidOperation` are the backend error classes of `interfaces.py`;
`osError` stands for a host `OSError` escaping an unguarded filesystem call;
`syncError` stands for `GitBackendError` (the spec's `SyncError`). -/
inductive Err
  | notFound
  | alreadyExists
  | invalidOperation (kind : ErrKind)
  | osError
  | syncError (msg : String)
deriving DecidableEq, Repr

/-- A filesystem entry: a regular file with byte content, or a directory. -/
inductive FsEntry
  | file (content : List Nat)
  | dir
deriving DecidableEq, Repr

/-- Filesystem state: association list from absolute component paths to
entries.  Lookup takes the first match. -/
abbrev FS := List (List String × FsEntry)

/-- First-match association lookup. -/
def fsLookup (fs : FS) (p : List String) : Option FsEntry :=
  match fs with
  | [] => none
  | (q, e) :: rest => if q = p then some e else fsLookup rest p

/-- Set or replace the entry at a path. -/
def fsSet (fs : FS) (p : List String) (e : FsEntry) : FS :=
  (p, e) :: fs.filter (fun kv => !(kv.1 == p))

/-- String prefix test (`str.startswith`), computed on character lists so
that concrete instances reduce inside the kernel. -/
def pyStartsWith (s pre : String) : Bool :=
  pre.toList.isPrefixOf s.toList

/-- Split a character list on a separator, keeping empty groups, the way
`str.split(sep)` does. -/
def chSplit (sep : Char) : List Char → List (List Char)
  | [] => [[]]
  | c :: rest =>
    let r := chSplit sep rest
    if c = sep then [] :: r
    else
      match r with
      | [] => [[c]]
      | g :: gs => (c :: g) :: gs

/-- Parse a POSIX path string into components the way `pathlib` does:
split on the separator, dropping empty components and single dots. -/
def pathParts (s : String) : List String :=
  ((chSplit '/' s.toList).map String.mk).filter (fun c => !(c == "" || c == "."))

/-- Lexical resolution of `..` components against an absolute component
list: the behaviour of `Path.resolve(strict=False)` on a symlink-free
tree (a `..` at the root stays at the root). -/
def resolveDotDot (p : List String) : List String :=
  p.foldl (fun acc c => if c = ".." then acc.dropLast else acc ++ [c]) []

/-- The backend root as held by `LocalFileBackend`: its string form
(`str(self._root)`) and its absolute component list. -/
structure RootCtx where
  rootStr : String
  root : List String
deriving Repr

/-- Step 1 of `LocalFileBackend._ensure_within_root` (`local.py`): when the
input starts with a slash but not with the root string, strip all leading
slashes (MCP root-relative convention), substituting a dot when nothing
remains. -/
def normalizeInput (ctx : RootCtx) (path : String) : String :=
  if pyStartsWith path "/" && !pyStartsWith path ctx.rootStr then
    let strippedList := path.toList.dropWhile (fun c => c == '/')
    if strippedList = [] then "." else String.mk strippedList
  else path

/-- Step 2 of `_ensure_within_root`: join the normalised input with the
root (an absolute path overrides the root, as `pathlib` joining does) and
resolve it; the parameter `res` models `Path.resolve(strict=False)`. -/
def resolveCandidate (res : List String → List String) (ctx : RootCtx)
    (path : String) : List String :=
  let pathStr := normalizeInput ctx path
  if pyStartsWith pathStr "/" then res (pathParts pathStr)
  else res (ctx.root ++ pathParts pathStr)

/-- Shallow embedding of `LocalFileBackend._ensure_within_root`: resolve
the caller path and require the result to be a descendant of, or equal
to, the root (`candidate.relative_to(self._root)`), failing with the
`PathOutsideRoot` kind of `InvalidOperationError` otherwise. -/
def ensureWithinRoot (res : List String → List String) (ctx : RootCtx)
    (path : String) : Except Err (List String) :=
  let candidate := resolveCandidate res ctx path
  if ctx.root.isPrefixOf candidate then .ok candidate
  else .error (.invalidOperation .pathOutsideRoot)

theorem ensureWithinRoot_ok_prefix (res : List String → List String)
    (ctx : RootCtx) (p : String) (q : List String)
    (h : ensureWithinRoot res ctx p = .ok q) : ctx.root <+: q := by
  simp only [ensureWithinRoot] at h
  split at h
  · rename_i hpre
    rw [List.isPrefixOf_iff_prefix] at hpre
    cases h
    exact hpre
  · cases h

theorem ensureWithinRoot_error_kind (res : List String → List String)
    (ctx : RootCtx) (p : String) (e : Err)
    (h : ensureWithinRoot res ctx p = .error e) :
    e = .invalidOperation .pathOutsideRoot := by
  simp only [ensureWithinRoot] at h
  split at h
  · cases h
  · cases h
    rfl

/-- Metadata snapshot returned by operations.  The source's `FileInfo`
carries timestamps, permissions and owner ids read from `stat`; in this
model every such field is a function of the stored entry, so the record
keeps the fields the claims talk about (path, directory flag, size). -/
structure FileInfo where
  path : List String
  isDir : Bool
  size : Nat
deriving DecidableEq, Repr

/-- Build the `FileInfo` that `LocalFileBackend.info` derives from a
filesystem entry. -/
def mkFileInfo (p : List String) (e : FsEntry) : FileInfo :=
  match e with
  | .file c => { path := p, isDir := false, size := c.length }
  | .dir => { path := p, isDir := true, size := 0 }

/-- Body of `LocalFileBackend.info` after path validation: `NotFound` for
a missing target, otherwise the metadata snapshot.  Operations that end in
`return self.info(target)` re-validate the already-resolved `target`;
since `Path.resolve` is idempotent on resolved paths and containment was
just checked, that call is modelled as this direct lookup. -/
def infoAt (fs : FS) (t : List String) : Except Err FileInfo :=
  match fsLookup fs t with
  | none => .error .notFound
  | some e => .ok (mkFileInfo t e)

/-- Embedding of `validate_entry_not_exists` (`validation.py`): an
existing entry is an `AlreadyExists` error unless `overwrite` is set. -/
def validateEntryNotExists (entry : Option FsEntry) (overwrite : Bool) :
    Except Err Unit :=
  if entry.isSome && !overwrite then .error .alreadyExists else .ok ()

/-- Embedding of `validate_not_overwriting_directory_with_file`
(`validation.py`). -/
def validateNotOverwritingDirectoryWithFile (entry : Option FsEntry) :
    Except Err Unit :=
  match entry with
  | some .dir => .error (.invalidOperation .cannotOverwriteDirectoryWithFile)
  | _ => .ok ()

/-- Embedding of `validate_not_overwriting_file_with_directory`
(`validation.py`). -/
def validateNotOverwritingFileWithDirectory (entry : Option FsEntry) :
    Except Err Unit :=
  match entry with
  | some (.file _) => .error (.invalidOperation .cannotOverwriteFileWithDirectory)
  | _ => .ok ()

/-- Composition of `validate_entry_exists` and `validate_is_file`
(`validation.py`) followed by reading the content: `NotFound` for a
missing entry, `CannotReadDirectory` for a directory (the kind
`validate_is_file` raises), otherwise the file bytes. -/
def fileContentAt (fs : FS) (t : List String) : Except Err (List Nat) :=
  match fsLookup fs t with
  | none => .error .notFound
  | some .dir => .error (.invalidOperation .cannotReadDirectory)
  | some (.file c) => .ok c

/-- Sequentially create directories at the listed paths, skipping paths
that already hold a directory and failing with a host error when a path
holds a file — the behaviour of `mkdir(parents=True, exist_ok=True)`
processed from the shallowest ancestor down. -/
def fsMkdirSeq (fs : FS) (ps : List (List String)) : FS × Except Err Unit :=
  match ps with
  | [] => (fs, .ok ())
  | p :: rest =>
    match fsLookup fs p with
    | some .dir => fsMkdirSeq fs rest
    | some (.file _) => (fs, .error .osError)
    | none => fsMkdirSeq (fsSet fs p .dir) rest

/-- All non-empty ancestors of a path, shallowest first, ending with the
path itself. -/
def ancestorsOf (p : List String) : List (List String) :=
  (List.range p.length).map (fun i => p.take (i + 1))

/-- Embedding of `path.mkdir(parents=True, exist_ok=True)`. -/
def fsMkdirParents (fs : FS) (p : List String) : FS × Except Err Unit :=
  fsMkdirSeq fs (ancestorsOf p)

/-- Embedding of `LocalFileBackend.create` (`local.py`): validate the
path, snapshot the entry, ensure parent directories, then the directory
or file branch with its two validators; `data=None` is the empty byte
payload. -/
def localCreate (res : List String → List String) (ctx : RootCtx) (fs : FS)
    (p : String) (data : List Nat) (isDirectory : Bool) (overwrite : Bool) :
    FS × Except Err FileInfo :=
  match ensureWithinRoot res ctx p with
  | .error e => (fs, .error e)
  | .ok target =>
    let entry := fsLookup fs target
    match fsMkdirParents fs target.dropLast with
    | (fs1, .error e) => (fs1, .error e)
    | (fs1, .ok _) =>
      if isDirectory then
        match validateNotOverwritingFileWithDirectory entry with
        | .error e => (fs1, .error e)
        | .ok _ =>
          match validateEntryNotExists entry overwrite with
          | .error e => (fs1, .error e)
          | .ok _ =>
            let fs2 := if (fsLookup fs1 target).isSome then fs1
                       else fsSet fs1 target .dir
            (fs2, infoAt fs2 target)
      else
        match validateNotOverwritingDirectoryWithFile entry with
        | .error e => (fs1, .error e)
        | .ok _ =>
          match validateEntryNotExists entry overwrite with
          | .error e => (fs1, .error e)
          | .ok _ =>
            let fs2 := fsSet fs1 target (.file data)
            (fs2, infoAt fs2 target)

/-- Embedding of `LocalFileBackend.read` in binary mode: path validation,
`validate_entry_exists`, `validate_is_file`, then the bytes. -/
def localRead (res : List String → List String) (ctx : RootCtx) (fs : FS)
    (p : String) : FS × Except Err (List Nat) :=
  match ensureWithinRoot res ctx p with
  | .error e => (fs, .error e)
  | .ok target => (fs, fileContentAt fs target)

/-- Embedding of `LocalFileBackend.update`: the target must exist and be
a file; `append` concatenates, otherwise the content is replaced. -/
def localUpdate (res : List String → List String) (ctx : RootCtx) (fs : FS)
    (p : String) (data : List Nat) (append : Bool) :
    FS × Except Err FileInfo :=
  match ensureWithinRoot res ctx p with
  | .error e => (fs, .error e)
  | .ok target =>
    match fileContentAt fs target with
    | .error e => (fs, .error e)
    | .ok old =>
      let fs2 := fsSet fs target (.file (if append then old ++ data else data))
      (fs2, infoAt fs2 target)

/-- True when some other entry lies strictly below the path: the model of
`any(target.iterdir())` for a directory. -/
def fsHasChild (fs : FS) (t : List String) : Bool :=
  fs.any (fun kv => t.isPrefixOf kv.1 && !(kv.1 == t))

/-- Embedding of `LocalFileBackend.delete`: `NotFound` when missing;
non-empty directories need `recursive` (else `DirectoryNotEmpty`);
`shutil.rmtree` removes the whole subtree, `unlink` a single file. -/
def localDelete (res : List String → List String) (ctx : RootCtx) (fs : FS)
    (p : String) (recursive : Bool) : FS × Except Err Unit :=
  match ensureWithinRoot res ctx p with
  | .error e => (fs, .error e)
  | .ok target =>
    match fsLookup fs target with
    | none => (fs, .error .notFound)
    | some .dir =>
      if fsHasChild fs target && !recursive then
        (fs, .error (.invalidOperation .directoryNotEmpty))
      else (fs.filter (fun kv => !(target.isPrefixOf kv.1)), .ok ())
    | some (.file _) => (fs.filter (fun kv => !(kv.1 == target)), .ok ())

/-- Embedding of `LocalFileBackend.info`: path validation then the
metadata lookup. -/
def localInfo (res : List String → List String) (ctx : RootCtx) (fs : FS)
    (p : String) : FS × Except Err FileInfo :=
  match ensureWithinRoot res ctx p with
  | .error e => (fs, .error e)
  | .ok target => (fs, infoAt fs target)

/-- Embedding of `LocalFileBackend.checksum`: path validation, the
exists/is-file validators, then the digest of the file bytes.  The
parameter `hash` models the selected streaming hasher of `utils.py`. -/
def localChecksum (res : List String → List String) (ctx : RootCtx)
    (hash : List Nat → String) (fs : FS) (p : String) :
    FS × Except Err String :=
  match ensureWithinRoot res ctx p with
  | .error e => (fs, .error e)
  | .ok target =>
    match fileContentAt fs target with
    | .error e => (fs, .error e)
    | .ok c => (fs, .ok (hash c))

/-- Python-dict assignment on an association list: replace in place when
the key exists, append otherwise. -/
def dictInsert (d : List (String × String)) (k v : String) :
    List (String × String) :=
  if d.any (fun kv => kv.1 == k) then
    d.map (fun kv => if kv.1 == k then (k, v) else kv)
  else d ++ [(k, v)]

/-- Loop body of `LocalFileBackend.checksum_many`: resolve the path inside
a try that swallows `NotFoundError` and `InvalidOperationError`, and record
a digest keyed by the caller's original string only when the target exists
and is not a directory. -/
def checksumStep (res : List String → List String) (ctx : RootCtx)
    (hash : List Nat → String) (fs : FS) (acc : List (String × String))
    (p : String) : List (String × String) :=
  match ensureWithinRoot res ctx p with
  | .error _ => acc
  | .ok target =>
    match fsLookup fs target with
    | some (.file c) => dictInsert acc p (hash c)
    | _ => acc

/-- Embedding of `LocalFileBackend.checksum_many`: fold the loop body over
the caller's paths starting from an empty mapping. -/
def checksumMany (res : List String → List String) (ctx : RootCtx)
    (hash : List Nat → String) (fs : FS) (paths : List String) :
    List (String × String) :=
  paths.foldl (checksumStep res ctx hash fs) []

/-- A chunk source for `stream_write`: the chunks it yields before either
finishing normally or raising.  Both the pull-iterator and push-reader
styles of `accumulate_chunks` behave this way; text chunks arrive already
UTF-8 encoded. -/
structure ChunkSource where
  chunks : List (List Nat)
  raisesAfter : Bool
deriving DecidableEq, Repr

/-- Embedding of `accumulate_chunks` (`utils.py`): drain the source into
memory; an exception from the source propagates and the accumulated
buffer is discarded. -/
def accumulateChunks (src : ChunkSource) : Except Err (List Nat) :=
  if src.raisesAfter then .error .osError else .ok src.chunks.flatten

/-- Embedding of `LocalFileBackend.stream_write`: path validation, the
same existence/type validators as file creation, parent directories,
then accumulate the whole source and write it with a single
`write_bytes`. -/
def localStreamWrite (res : List String → List String) (ctx : RootCtx)
    (fs : FS) (p : String) (src : ChunkSource) (overwrite : Bool) :
    FS × Except Err FileInfo :=
  match ensureWithinRoot res ctx p with
  | .error e => (fs, .error e)
  | .ok target =>
    let entry := fsLookup fs target
    match validateNotOverwritingDirectoryWithFile entry with
    | .error e => (fs, .error e)
    | .ok _ =>
      match validateEntryNotExists entry overwrite with
      | .error e => (fs, .error e)
      | .ok _ =>
        match fsMkdirParents fs target.dropLast with
        | (fs1, .error e) => (fs1, .error e)
        | (fs1, .ok _) =>
          match accumulateChunks src with
          | .error e => (fs1, .error e)
          | .ok payload =>
            let fs2 := fsSet fs1 target (.file payload)
            (fs2, infoAt fs2 target)

/-- A concrete backend root used for witnesses: the directory `/r`. -/
def sampleCtx : RootCtx := { rootStr := "/r", root := ["r"] }

/-- A concrete filesystem holding just the root directory. -/
def sampleFs : FS := [(["r"], .dir)]

/-- C1: for every caller-supplied path accepted by a Local Store
operation, the effective absolute path (the normalised input joined with
the root and resolved) is a descendant of, or equal to, the backend root;
an input whose resolved form falls outside the root makes every operation
fail with the `PathOutsideRoot` kind of `InvalidOperationError` and leave
the filesystem untouched. -/
theorem localStore_path_containment (res : List String → List String)
    (ctx : RootCtx) (p : String) :
    (∀ q, ensureWithinRoot res ctx p = .ok q → ctx.root <+: q) ∧
    (∀ e, ensureWithinRoot res ctx p = .error e →
      e = .invalidOperation .pathOutsideRoot ∧
      (∀ fs data d o, localCreate res ctx fs p data d o = (fs, .error e)) ∧
      (∀ fs, localRead res ctx fs p = (fs, .error e)) ∧
      (∀ fs data a, localUpdate res ctx fs p data a = (fs, .error e)) ∧
      (∀ fs r, localDelete res ctx fs p r = (fs, .error e)) ∧
      (∀ fs, localInfo res ctx fs p = (fs, .error e)) ∧
      (∀ hash fs, localChecksum res ctx hash fs p = (fs, .error e)) ∧
      (∀ fs src o, localStreamWrite res ctx fs p src o = (fs, .error e))) := by
  refine ⟨fun q h => ensureWithinRoot_ok_prefix res ctx p q h, fun e h => ?_⟩
  refine ⟨ensureWithinRoot_error_kind res ctx p e h, ?_, ?_, ?_, ?_, ?_, ?_, ?_⟩ <;>
    intros <;>
    simp [localCreate, localRead, localUpdate, localDelete, localInfo,
      localChecksum, localStreamWrite, h]

/-- Witness: the traversal `../esc` under the root `/r` is rejected with
`PathOutsideRoot` by create and delete without touching the filesystem,
and the accepted path `/doc.txt` resolves inside the root. -/
theorem localStore_path_containment_witness :
    (sampleCtx.root <+: ["r", "doc.txt"]) ∧
    localCreate resolveDotDot sampleCtx sampleFs "../esc" [6] false false =
      (sampleFs, .error (.invalidOperation .pathOutsideRoot)) ∧
    localDelete resolveDotDot sampleCtx sampleFs "../esc" true =
      (sampleFs, .error (.invalidOperation .pathOutsideRoot)) := by
  have h := (localStore_path_containment resolveDotDot sampleCtx "../esc").2
    (.invalidOperation .pathOutsideRoot) (by decide)
  have hok := (localStore_path_containment resolveDotDot sampleCtx "/doc.txt").1
    ["r", "doc.txt"] (by decide)
  exact ⟨hok, h.2.1 sampleFs [6] false false, h.2.2.2.2.1 sampleFs true⟩

/-- Counterexample to C4: the Local Store path resolution accepts the
empty string (it resolves to the backend root, and reading it fails with
`CannotReadDirectory`, not `EmptyPath`), and a whitespace-only path
resolves to an entry named by the whitespace (so `info` fails with
`NotFound`, not `EmptyPath`). -/
theorem emptyPath_not_rejected_cex :
    ensureWithinRoot resolveDotDot sampleCtx "" = .ok ["r"] ∧
    localRead resolveDotDot sampleCtx sampleFs "" =
      (sampleFs, .error (.invalidOperation .cannotReadDirectory)) ∧
    localInfo resolveDotDot sampleCtx sampleFs "   " =
      (sampleFs, .error .notFound) := by
  refine ⟨by decide, by decide, by decide⟩

/-- C4 amended: the Local Store path resolution never fails with the
`EmptyPath` kind — its only failure is `PathOutsideRoot` — and the empty
input is resolved like any other path, to the resolution of the root
itself.  (The `EmptyPath` rejection lives in the remote backend's path
normaliser, which the Local Store does not call.) -/
theorem localStore_never_emptyPath (res : List String → List String)
    (ctx : RootCtx) :
    (∀ p e, ensureWithinRoot res ctx p = .error e →
      e ≠ .invalidOperation .emptyPath) ∧
    resolveCandidate res ctx "" = res ctx.root := by
  constructor
  · intro p e h
    rw [ensureWithinRoot_error_kind res ctx p e h]
    decide
  · simp [resolveCandidate, normalizeInput, pyStartsWith, pathParts, chSplit]

/-- Witness: applying the amended C4 theorem at the traversal input
`../esc`, whose rejection is indeed not `EmptyPath`. -/
theorem localStore_never_emptyPath_witness :
    (Err.invalidOperation .pathOutsideRoot ≠ .invalidOperation .emptyPath) ∧
    resolveCandidate resolveDotDot sampleCtx "" = resolveDotDot sampleCtx.root := by
  have h := localStore_never_emptyPath resolveDotDot sampleCtx
  exact ⟨h.1 "../esc" (.invalidOperation .pathOutsideRoot) (by decide), h.2⟩

theorem fsLookup_fsSet_self (fs : FS) (p : List String) (e : FsEntry) :
    fsLookup (fsSet fs p e) p = some e := by
  simp [fsSet, fsLookup]

theorem fsLookup_filter_ne (p q : List String) (hq : q ≠ p) (fs : FS) :
    fsLookup (fs.filter (fun kv => !(kv.1 == p))) q = fsLookup fs q := by
  induction fs with
  | nil => rfl
  | cons kv rest ih =>
    rcases kv with ⟨k, e⟩
    by_cases hk : k = p
    · have hpq : ¬ (p = q) := fun h => hq h.symm
      simp [List.filter_cons, fsLookup, hk, hpq, ih]
    · simp only [List.filter_cons]
      by_cases hkq : k = q
      · subst hkq
        simp [fsLookup, hk]
      · simp [fsLookup, hk, hkq, ih]

theorem fsLookup_fsSet_ne (fs : FS) (p q : List String) (e : FsEntry)
    (hq : q ≠ p) : fsLookup (fsSet fs p e) q = fsLookup fs q := by
  have hpq : ¬ (p = q) := fun h => hq h.symm
  simp only [fsSet, fsLookup, if_neg hpq]
  exact fsLookup_filter_ne p q hq fs

theorem fsMkdirSeq_lookup_of_not_mem (q : List String) :
    ∀ (ps : List (List String)) (fs : FS), q ∉ ps →
      fsLookup (fsMkdirSeq fs ps).1 q = fsLookup fs q := by
  intro ps
  induction ps with
  | nil => intro fs _; rfl
  | cons p rest ih =>
    intro fs hq
    have hqp : q ≠ p := fun h => hq (h ▸ List.mem_cons_self p rest)
    have hqrest : q ∉ rest := fun h => hq (List.mem_cons_of_mem p h)
    simp only [fsMkdirSeq]
    match hent : fsLookup fs p with
    | some .dir => exact ih fs hqrest
    | some (.file c) => rfl
    | none => rw [ih (fsSet fs p .dir) hqrest, fsLookup_fsSet_ne fs p q .dir hqp]

theorem fsMkdirSeq_mono (q : List String) (e : FsEntry) :
    ∀ (ps : List (List String)) (fs : FS), fsLookup fs q = some e →
      fsLookup (fsMkdirSeq fs ps).1 q = some e := by
  intro ps
  induction ps with
  | nil => intro fs h; exact h
  | cons p rest ih =>
    intro fs h
    simp only [fsMkdirSeq]
    match hent : fsLookup fs p with
    | some .dir => exact ih fs h
    | some (.file c) => exact h
    | none =>
      have hqp : q ≠ p := fun hqp => by rw [hqp, hent] at h; cases h
      exact ih (fsSet fs p .dir) (by rw [fsLookup_fsSet_ne fs p q .dir hqp]; exact h)

theorem fsMkdirSeq_ok_mem :
    ∀ (ps : List (List String)) (fs fs1 : FS),
      fsMkdirSeq fs ps = (fs1, .ok ()) →
      ∀ p ∈ ps, fsLookup fs1 p = some .dir := by
  intro ps
  induction ps with
  | nil => intro fs fs1 _ p hp; cases hp
  | cons p0 rest ih =>
    intro fs fs1 hrun p hp
    simp only [fsMkdirSeq] at hrun
    split at hrun
    · rename_i hent
      rcases List.mem_cons.mp hp with rfl | hprest
      · have hmono := fsMkdirSeq_mono p .dir rest fs hent
        rw [hrun] at hmono
        exact hmono
      · exact ih fs fs1 hrun p hprest
    · simp at hrun
    · rename_i hent
      rcases List.mem_cons.mp hp with rfl | hprest
      · have hmono := fsMkdirSeq_mono p .dir rest (fsSet fs p .dir)
          (fsLookup_fsSet_self fs p .dir)
        rw [hrun] at hmono
        exact hmono
      · exact ih (fsSet fs p0 .dir) fs1 hrun p hprest

theorem fsMkdirSeq_noop_of_all_dirs :
    ∀ (ps : List (List String)) (fs : FS),
      (∀ p ∈ ps, fsLookup fs p = some .dir) →
      fsMkdirSeq fs ps = (fs, .ok ()) := by
  intro ps
  induction ps with
  | nil => intro fs _; rfl
  | cons p rest ih =>
    intro fs hall
    have hp := hall p (List.mem_cons_self p rest)
    simp only [fsMkdirSeq, hp]
    exact ih fs (fun q hq => hall q (List.mem_cons_of_mem p hq))

theorem mem_ancestorsOf_length {q p : List String}
    (h : q ∈ ancestorsOf p) : q.length ≤ p.length := by
  simp only [ancestorsOf, List.mem_map, List.mem_range] at h
  rcases h with ⟨i, _, rfl⟩
  simp [List.length_take_le]

theorem mem_ancestors_dropLast_ne {q t : List String}
    (h : q ∈ ancestorsOf t.dropLast) : q ≠ t := by
  intro heq
  subst heq
  have hlen := mem_ancestorsOf_length h
  rw [List.length_dropLast] at hlen
  cases hq : q.length with
  | zero =>
    have hnil : q = [] := List.length_eq_zero.mp hq
    subst hnil
    simp [ancestorsOf] at h
  | succ n => omega

theorem not_mem_ancestors_dropLast (t : List String) :
    t ∉ ancestorsOf t.dropLast :=
  fun ht => (mem_ancestors_dropLast_ne ht) rfl

theorem validateNOFWD_ok (entry : Option FsEntry) (u : Unit)
    (h : validateNotOverwritingFileWithDirectory entry = .ok u) :
    entry = none ∨ entry = some .dir := by
  match entry with
  | none => exact Or.inl rfl
  | some (.file c) => simp [validateNotOverwritingFileWithDirectory] at h
  | some .dir => exact Or.inr rfl

/-- Facts extracted from a successful directory create: the path resolved
inside the root, the target now holds a directory, the returned info is
the directory snapshot, and re-running the parent `mkdir` is a no-op. -/
theorem localCreate_dir_ok_facts (res : List String → List String)
    (ctx : RootCtx) (fs : FS) (p : String) (data : List Nat) (o : Bool)
    (fs1 : FS) (i : FileInfo)
    (h : localCreate res ctx fs p data true o = (fs1, .ok i)) :
    ∃ t, ensureWithinRoot res ctx p = .ok t ∧
      fsLookup fs1 t = some .dir ∧ i = mkFileInfo t .dir ∧
      fsMkdirParents fs1 t.dropLast = (fs1, .ok ()) := by
  simp only [localCreate] at h
  split at h
  · simp at h
  · rename_i t hens
    refine ⟨t, hens, ?_⟩
    split at h
    · simp at h
    · rename_i fsA u hmk
      simp only [if_true] at h
      split at h
      · simp at h
      · rename_i u2 hval
        split at h
        · simp at h
        · rw [Prod.mk.injEq] at h
          obtain ⟨hfs, hinfo⟩ := h
          have hmkseq : fsMkdirSeq fs (ancestorsOf t.dropLast) = (fsA, .ok u) := hmk
          have hfstA : fsLookup fsA t = fsLookup fs t := by
            have := fsMkdirSeq_lookup_of_not_mem t (ancestorsOf t.dropLast) fs
              (not_mem_ancestors_dropLast t)
            rw [congrArg Prod.fst hmkseq] at this
            exact this
          have hdirsA : ∀ q ∈ ancestorsOf t.dropLast, fsLookup fsA q = some .dir := by
            intro q hq
            exact fsMkdirSeq_ok_mem (ancestorsOf t.dropLast) fs fsA
              (by rw [hmkseq]) q hq
          have hlook : fsLookup fs1 t = some .dir := by
            rw [← hfs]
            split
            · rename_i hs
              rw [hfstA] at hs
              rcases validateNOFWD_ok (fsLookup fs t) u2 hval with hnone | hdir
              · rw [hnone] at hs; simp at hs
              · rw [hfstA, hdir]
            · exact fsLookup_fsSet_self fsA t .dir
          have hi : i = mkFileInfo t .dir := by
            rw [hfs] at hinfo
            rw [infoAt, hlook] at hinfo
            exact (Except.ok.injEq _ _ |>.mp hinfo).symm
          refine ⟨hlook, hi, ?_⟩
          have hdirs1 : ∀ q ∈ ancestorsOf t.dropLast, fsLookup fs1 q = some .dir := by
            intro q hq
            rw [← hfs]
            split
            · exact hdirsA q hq
            · rw [fsLookup_fsSet_ne fsA t q .dir (mem_ancestors_dropLast_ne hq)]
              exact hdirsA q hq
          exact fsMkdirSeq_noop_of_all_dirs (ancestorsOf t.dropLast) fs1 hdirs1

/-- Counterexample to C3: after a successful `create("d", is_directory=true)`
under the root `/r`, repeating the call with default arguments does not
succeed — `validate_entry_not_exists` sees the existing entry with
`overwrite=false` and fails with `AlreadyExists`. -/
theorem create_dir_not_idempotent_cex :
    localCreate resolveDotDot sampleCtx sampleFs "d" [] true false =
      ([(["r", "d"], .dir), (["r"], .dir)],
        .ok { path := ["r", "d"], isDir := true, size := 0 }) ∧
    localCreate resolveDotDot sampleCtx [(["r", "d"], .dir), (["r"], .dir)]
        "d" [] true false =
      ([(["r", "d"], .dir), (["r"], .dir)], .error .alreadyExists) := by
  exact ⟨by decide, by decide⟩

/-- C3 amended: repeated directory creation is idempotent only when
`overwrite=true` is passed — the repeat then succeeds, changes nothing and
returns the same `FileInfo`; with the default `overwrite=false` a second
`create(p, is_directory=true)` on the existing directory fails with
`AlreadyExists`; and when a non-directory exists at the target the call
fails with `CannotOverwriteFileWithDirectory`. -/
theorem create_dir_repeat_semantics (res : List String → List String)
    (ctx : RootCtx) (p : String) :
    (∀ fs data o fs1 i, localCreate res ctx fs p data true o = (fs1, .ok i) →
      ∀ data2, localCreate res ctx fs1 p data2 true true = (fs1, .ok i) ∧
        localCreate res ctx fs1 p data2 true false =
          (fs1, .error .alreadyExists)) ∧
    (∀ fs t c fsA data o, ensureWithinRoot res ctx p = .ok t →
      fsLookup fs t = some (.file c) →
      fsMkdirParents fs t.dropLast = (fsA, .ok ()) →
      localCreate res ctx fs p data true o =
        (fsA, .error (.invalidOperation .cannotOverwriteFileWithDirectory))) := by
  constructor
  · intro fs data o fs1 i h data2
    obtain ⟨t, hens, hlook, hi, hmk1⟩ :=
      localCreate_dir_ok_facts res ctx fs p data o fs1 i h
    constructor
    · simp [localCreate, hens, hmk1, hlook,
        validateNotOverwritingFileWithDirectory, validateEntryNotExists,
        infoAt, hi]
    · simp [localCreate, hens, hmk1, hlook,
        validateNotOverwritingFileWithDirectory, validateEntryNotExists]
  · intro fs t c fsA data o hens hfile hmk
    simp [localCreate, hens, hmk, hfile,
      validateNotOverwritingFileWithDirectory]

/-- Witness for the amended C3 theorem: concrete repeats under `/r` with
`overwrite=true` and `overwrite=false`, and a file blocking directory
creation. -/
theorem create_dir_repeat_semantics_witness :
    (localCreate resolveDotDot sampleCtx [(["r", "d"], .dir), (["r"], .dir)]
        "d" [] true true =
      ([(["r", "d"], .dir), (["r"], .dir)],
        .ok { path := ["r", "d"], isDir := true, size := 0 }) ∧
    localCreate resolveDotDot sampleCtx [(["r", "d"], .dir), (["r"], .dir)]
        "d" [] true false =
      ([(["r", "d"], .dir), (["r"], .dir)], .error .alreadyExists)) ∧
    localCreate resolveDotDot sampleCtx [(["r"], .dir), (["r", "f"], .file [1])]
        "f" [] true false =
      ([(["r"], .dir), (["r", "f"], .file [1])],
        .error (.invalidOperation .cannotOverwriteFileWithDirectory)) := by
  refine ⟨(create_dir_repeat_semantics resolveDotDot sampleCtx "d").1
    sampleFs [] false _ _ (by decide) [], ?_⟩
  exact (create_dir_repeat_semantics resolveDotDot sampleCtx "f").2
    [(["r"], .dir), (["r", "f"], .file [1])] ["r", "f"] [1]
    [(["r"], .dir), (["r", "f"], .file [1])] [] false
    (by decide) (by decide) (by decide)

/-- C10: `stream_write` drains the whole chunk source before touching the
destination and then writes once: when the source raises partway, the
operation fails and the destination entry is exactly what it was; when it
succeeds, the destination holds the concatenation of all chunks. -/
theorem streamWrite_source_failure_atomic (res : List String → List String)
    (ctx : RootCtx) (fs : FS) (p : String) (src : ChunkSource) (o : Bool)
    (t : List String) (hens : ensureWithinRoot res ctx p = .ok t) :
    (src.raisesAfter = true →
      (∃ e, (localStreamWrite res ctx fs p src o).2 = .error e) ∧
      fsLookup (localStreamWrite res ctx fs p src o).1 t = fsLookup fs t) ∧
    (∀ fs2 i, localStreamWrite res ctx fs p src o = (fs2, .ok i) →
      fsLookup fs2 t = some (.file src.chunks.flatten)) := by
  constructor
  · intro hraise
    simp only [localStreamWrite, hens]
    split
    · rename_i e hval
      exact ⟨⟨e, rfl⟩, rfl⟩
    · split
      · rename_i e hval
        exact ⟨⟨e, rfl⟩, rfl⟩
      · split
        · rename_i fs1 e hmk
          refine ⟨⟨e, rfl⟩, ?_⟩
          have hmk' : fsMkdirSeq fs (ancestorsOf t.dropLast) = (fs1, .error e) := hmk
          have hnm := fsMkdirSeq_lookup_of_not_mem t (ancestorsOf t.dropLast) fs
            (not_mem_ancestors_dropLast t)
          rw [congrArg Prod.fst hmk'] at hnm
          exact hnm
        · rename_i fs1 u hmk
          simp only [accumulateChunks, hraise, if_true]
          refine ⟨⟨.osError, rfl⟩, ?_⟩
          have hmk' : fsMkdirSeq fs (ancestorsOf t.dropLast) = (fs1, .ok u) := hmk
          have hnm := fsMkdirSeq_lookup_of_not_mem t (ancestorsOf t.dropLast) fs
            (not_mem_ancestors_dropLast t)
          rw [congrArg Prod.fst hmk'] at hnm
          exact hnm
  · intro fs2 i h
    simp only [localStreamWrite, hens] at h
    split at h
    · simp at h
    · split at h
      · simp at h
      · split at h
        · simp at h
        · rename_i fs1 u hmk
          split at h
          · simp at h
          · rename_i payload hacc
            rw [Prod.mk.injEq] at h
            obtain ⟨hfs2, hok⟩ := h
            have hp : payload = src.chunks.flatten := by
              simp only [accumulateChunks] at hacc
              split at hacc
              · cases hacc
              · exact (Except.ok.injEq _ _ |>.mp hacc).symm
            rw [← hfs2, hp]
            exact fsLookup_fsSet_self fs1 t (.file src.chunks.flatten)

/-- Witness for the stream-write theorem: a source that raises leaves the
existing file `f` (content `[9]`) untouched, and a successful source
replaces it with the concatenation of its chunks. -/
theorem streamWrite_source_failure_atomic_witness :
    ((∃ e, (localStreamWrite resolveDotDot sampleCtx
        [(["r"], .dir), (["r", "f"], .file [9])] "f"
        { chunks := [[1], [2]], raisesAfter := true } true).2 = .error e) ∧
      fsLookup (localStreamWrite resolveDotDot sampleCtx
        [(["r"], .dir), (["r", "f"], .file [9])] "f"
        { chunks := [[1], [2]], raisesAfter := true } true).1 ["r", "f"] =
      fsLookup [(["r"], .dir), (["r", "f"], .file [9])] ["r", "f"]) ∧
    fsLookup [(["r", "f"], .file [1, 2]), (["r"], .dir)] ["r", "f"] =
      some (.file [1, 2]) := by
  have h := streamWrite_source_failure_atomic resolveDotDot sampleCtx
    [(["r"], .dir), (["r", "f"], .file [9])] "f"
    { chunks := [[1], [2]], raisesAfter := true } true ["r", "f"] (by decide)
  have h2 := streamWrite_source_failure_atomic resolveDotDot sampleCtx
    [(["r"], .dir), (["r", "f"], .file [9])] "f"
    { chunks := [[1], [2]], raisesAfter := false } true ["r", "f"] (by decide)
  exact ⟨h.1 rfl, h2.2 [(["r", "f"], .file [1, 2]), (["r"], .dir)]
    { path := ["r", "f"], isDir := false, size := 2 } (by decide)⟩

/-- The bytes of the file a caller path denotes, when it resolves inside
the root to an existing non-directory; `none` otherwise.  This is the
selection criterion of `checksum_many`. -/
def resolvesToFile (res : List String → List String) (ctx : RootCtx)
    (fs : FS) (p : String) : Option (List Nat) :=
  match ensureWithinRoot res ctx p with
  | .error _ => none
  | .ok target =>
    match fsLookup fs target with
    | some (.file c) => some c
    | _ => none

theorem checksumStep_eq (res : List String → List String) (ctx : RootCtx)
    (hash : List Nat → String) (fs : FS) (acc : List (String × String))
    (p : String) :
    checksumStep res ctx hash fs acc p =
      match resolvesToFile res ctx fs p with
      | some c => dictInsert acc p (hash c)
      | none => acc := by
  unfold checksumStep resolvesToFile
  cases hE : ensureWithinRoot res ctx p with
  | error e => rfl
  | ok t =>
    dsimp only
    cases hL : fsLookup fs t with
    | none => rfl
    | some e =>
      cases e with
      | file c => rfl
      | dir => rfl

theorem mem_dictInsert {d : List (String × String)} {k v k' v' : String}
    (h : (k', v') ∈ dictInsert d k v) : (k' = k ∧ v' = v) ∨ (k', v') ∈ d := by
  unfold dictInsert at h
  split at h
  · rcases List.mem_map.mp h with ⟨kv, hkv, hf⟩
    by_cases hk : (kv.1 == k) = true
    · rw [if_pos hk] at hf
      cases hf
      exact Or.inl ⟨rfl, rfl⟩
    · rw [if_neg hk] at hf
      exact Or.inr (hf ▸ hkv)
  · rcases List.mem_append.mp h with hd | hs
    · exact Or.inr hd
    · rcases List.mem_singleton.mp hs with h2
      cases h2
      exact Or.inl ⟨rfl, rfl⟩

theorem dictInsert_exists_iff (d : List (String × String)) (k v k' : String) :
    (∃ v', (k', v') ∈ dictInsert d k v) ↔ (k' = k ∨ ∃ v', (k', v') ∈ d) := by
  constructor
  · rintro ⟨v', hv'⟩
    rcases mem_dictInsert hv' with ⟨rfl, rfl⟩ | hmem
    · exact Or.inl rfl
    · exact Or.inr ⟨v', hmem⟩
  · intro h
    by_cases hk : k' = k
    · subst hk
      refine ⟨v, ?_⟩
      unfold dictInsert
      split
      · rename_i hany
        rcases List.any_eq_true.mp hany with ⟨kv, hkv, hbeq⟩
        exact List.mem_map.mpr ⟨kv, hkv, by rw [if_pos hbeq]⟩
      · exact List.mem_append.mpr (Or.inr (List.mem_singleton.mpr rfl))
    · rcases h with rfl | ⟨v', hv'⟩
      · exact absurd rfl hk
      · refine ⟨v', ?_⟩
        unfold dictInsert
        split
        · exact List.mem_map.mpr ⟨(k', v'), hv', by rw [if_neg (by simp [hk])]⟩
        · exact List.mem_append.mpr (Or.inl hv')

theorem checksumMany_inv (res : List String → List String) (ctx : RootCtx)
    (hash : List Nat → String) (fs : FS) :
    ∀ (paths : List String) (acc : List (String × String)),
      (∀ k v, (k, v) ∈ acc →
        ∃ c, resolvesToFile res ctx fs k = some c ∧ v = hash c) →
      (∀ k v, (k, v) ∈ paths.foldl (checksumStep res ctx hash fs) acc →
        ∃ c, resolvesToFile res ctx fs k = some c ∧ v = hash c) ∧
      (∀ k, (∃ v, (k, v) ∈ paths.foldl (checksumStep res ctx hash fs) acc) ↔
        ((∃ v, (k, v) ∈ acc) ∨
          (k ∈ paths ∧ ∃ c, resolvesToFile res ctx fs k = some c))) := by
  intro paths
  induction paths with
  | nil =>
    intro acc hacc
    refine ⟨hacc, fun k => ?_⟩
    simp
  | cons p rest ih =>
    intro acc hacc
    rw [List.foldl_cons]
    have hacc' : ∀ k v, (k, v) ∈ checksumStep res ctx hash fs acc p →
        ∃ c, resolvesToFile res ctx fs k = some c ∧ v = hash c := by
      intro k v hm
      rw [checksumStep_eq] at hm
      cases hR : resolvesToFile res ctx fs p with
      | none => rw [hR] at hm; exact hacc k v hm
      | some c =>
        rw [hR] at hm
        rcases mem_dictInsert hm with ⟨rfl, rfl⟩ | hmem
        · exact ⟨c, hR, rfl⟩
        · exact hacc k v hmem
    obtain ⟨ih1, ih2⟩ := ih (checksumStep res ctx hash fs acc p) hacc'
    refine ⟨ih1, fun k => ?_⟩
    rw [ih2 k, checksumStep_eq]
    cases hR : resolvesToFile res ctx fs p with
    | none =>
      constructor
      · rintro (h | h)
        · exact Or.inl h
        · exact Or.inr ⟨List.mem_cons_of_mem p h.1, h.2⟩
      · rintro (h | ⟨hk, hc⟩)
        · exact Or.inl h
        · rcases List.mem_cons.mp hk with rfl | hk'
          · rw [hR] at hc
            rcases hc with ⟨c, hc⟩
            cases hc
          · exact Or.inr ⟨hk', hc⟩
    | some c =>
      rw [dictInsert_exists_iff]
      constructor
      · rintro ((rfl | h) | h)
        · exact Or.inr ⟨List.mem_cons_self _ _, ⟨c, hR⟩⟩
        · exact Or.inl h
        · exact Or.inr ⟨List.mem_cons_of_mem p h.1, h.2⟩
      · rintro (h | ⟨hk, hc⟩)
        · exact Or.inl (Or.inr h)
        · rcases List.mem_cons.mp hk with rfl | hk'
          · exact Or.inl (Or.inl rfl)
          · exact Or.inr ⟨hk', hc⟩

/-- C8: `checksum_many` returns a mapping whose keys are exactly the
caller's original path strings of those inputs that resolve to an existing
non-directory inside the root, each mapped to the digest of that file's
bytes; missing entries, directories and paths escaping the root are
silently skipped, and the call itself is a total function — it never
fails. -/
theorem checksumMany_spec (res : List String → List String) (ctx : RootCtx)
    (hash : List Nat → String) (fs : FS) (paths : List String) :
    (∀ k, (∃ v, (k, v) ∈ checksumMany res ctx hash fs paths) ↔
      (k ∈ paths ∧ ∃ c, resolvesToFile res ctx fs k = some c)) ∧
    (∀ k v, (k, v) ∈ checksumMany res ctx hash fs paths →
      ∃ c, resolvesToFile res ctx fs k = some c ∧ v = hash c) := by
  have h := checksumMany_inv res ctx hash fs paths [] (by simp)
  constructor
  · intro k
    rw [checksumMany, h.2 k]
    simp
  · exact h.1

/-- Witness for `checksum_many`: with `ok.txt` a file, `dir` a directory
and `missing.txt` absent under `/r`, only the key `ok.txt` appears. -/
theorem checksumMany_spec_witness :
    (∃ v, ("ok.txt", v) ∈ checksumMany resolveDotDot sampleCtx
      (fun c => toString c.length)
      [(["r"], .dir), (["r", "ok.txt"], .file [7]), (["r", "dir"], .dir)]
      ["ok.txt", "missing.txt", "dir"]) ∧
    ¬ (∃ v, ("dir", v) ∈ checksumMany resolveDotDot sampleCtx
      (fun c => toString c.length)
      [(["r"], .dir), (["r", "ok.txt"], .file [7]), (["r", "dir"], .dir)]
      ["ok.txt", "missing.txt", "dir"]) ∧
    ¬ (∃ v, ("missing.txt", v) ∈ checksumMany resolveDotDot sampleCtx
      (fun c => toString c.length)
      [(["r"], .dir), (["r", "ok.txt"], .file [7]), (["r", "dir"], .dir)]
      ["ok.txt", "missing.txt", "dir"]) := by
  have h := checksumMany_spec resolveDotDot sampleCtx
    (fun c => toString c.length)
    [(["r"], .dir), (["r", "ok.txt"], .file [7]), (["r", "dir"], .dir)]
    ["ok.txt", "missing.txt", "dir"]
  refine ⟨(h.1 "ok.txt").mpr ⟨by decide, ⟨[7], by decide⟩⟩, ?_, ?_⟩
  · intro hex
    rcases ((h.1 "dir").mp hex).2 with ⟨c, hc⟩
    rw [show resolvesToFile resolveDotDot sampleCtx
      [(["r"], .dir), (["r", "ok.txt"], .file [7]), (["r", "dir"], .dir)]
      "dir" = none from by decide] at hc
    cases hc
  · intro hex
    rcases ((h.1 "missing.txt").mp hex).2 with ⟨c, hc⟩
    rw [show resolvesToFile resolveDotDot sampleCtx
      [(["r"], .dir), (["r", "ok.txt"], .file [7]), (["r", "dir"], .dir)]
      "missing.txt" = none from by decide] at hc
    cases hc

/-- Process-local lock record of `FileLock` (`locking.py`): owning
process id, reentry count, and whether the lock-file handle is open. -/
structure LockRecord where
  ownerPid : Option Nat
  lockCount : Nat
  handleOpen : Bool
deriving DecidableEq, Repr

/-- The released state: no owner, zero count, handle closed. -/
def idleRecord : LockRecord :=
  { ownerPid := none, lockCount := 0, handleOpen := false }

/-- Embedding of `FileLock._acquire_lock`: a call by the process that
already owns the record increments the count and returns immediately;
otherwise the lock file is opened and the non-blocking platform primitive
attempted — `osOk` says whether it succeeds, which it does whenever no
other process holds the lock; on persistent failure (handle closed each
round) the retry loop ends in timeout or `LockError`, modelled as
`none`. -/
def tryAcquire (pid : Nat) (osOk : Bool) (r : LockRecord) :
    Option LockRecord :=
  if r.ownerPid = some pid then
    some { r with lockCount := r.lockCount + 1 }
  else if osOk then
    some { ownerPid := some pid, lockCount := 1, handleOpen := true }
  else none

/-- Embedding of `FileLock._release_lock`: a count above one only
decrements; otherwise the OS lock is released, the handle closed, and the
record reset (count zero, owner cleared). -/
def releaseLock (r : LockRecord) : LockRecord :=
  if 1 < r.lockCount then { r with lockCount := r.lockCount - 1 }
  else idleRecord

/-- An acquire or release call on the lock. -/
inductive LockOp
  | acq
  | rel
deriving DecidableEq, Repr

/-- Run a sequence of acquire/release calls by a single process with the
OS lock uncontended (every OS-level attempt succeeds, so `getD` never
falls back). -/
def runLockOps (pid : Nat) (r : LockRecord) : List LockOp → LockRecord
  | [] => r
  | .acq :: rest => runLockOps pid ((tryAcquire pid true r).getD r) rest
  | .rel :: rest => runLockOps pid (releaseLock r) rest

/-- Balanced sequences of acquires and releases starting from nesting
depth `n`: no prefix releases more than was acquired, and the whole
sequence returns to depth zero. -/
def balancedFrom (n : Nat) : List LockOp → Bool
  | [] => n == 0
  | .acq :: rest => balancedFrom (n + 1) rest
  | .rel :: rest => if n == 0 then false else balancedFrom (n - 1) rest

/-- The record after `n` balanced acquisitions by process `pid`. -/
def heldState (pid n : Nat) : LockRecord :=
  if n = 0 then idleRecord
  else { ownerPid := some pid, lockCount := n, handleOpen := true }

theorem tryAcquire_heldState (pid n : Nat) :
    (tryAcquire pid true (heldState pid n)).getD (heldState pid n) =
      heldState pid (n + 1) := by
  by_cases hn : n = 0
  · subst hn
    simp [tryAcquire, heldState, idleRecord]
  · simp [tryAcquire, heldState, hn]

theorem releaseLock_heldState (pid : Nat) (n : Nat) (hn : n ≠ 0) :
    releaseLock (heldState pid n) = heldState pid (n - 1) := by
  by_cases h1 : n = 1
  · subst h1
    simp [releaseLock, heldState, idleRecord]
  · have h2 : 1 < n := by omega
    have h3 : ¬ (n - 1 = 0) := by omega
    simp [releaseLock, heldState, hn, h2, h3]

theorem runLockOps_balancedFrom (pid : Nat) :
    ∀ (ops : List LockOp) (n : Nat), balancedFrom n ops = true →
      runLockOps pid (heldState pid n) ops = idleRecord := by
  intro ops
  induction ops with
  | nil =>
    intro n h
    simp only [balancedFrom, beq_iff_eq] at h
    simp [runLockOps, heldState, h]
  | cons op rest ih =>
    intro n h
    cases op with
    | acq =>
      simp only [balancedFrom] at h
      simp only [runLockOps, tryAcquire_heldState]
      exact ih (n + 1) h
    | rel =>
      simp only [balancedFrom] at h
      by_cases hn : n = 0
      · simp [hn] at h
      · rw [if_neg (by simp [hn])] at h
        simp only [runLockOps, releaseLock_heldState pid n hn]
        exact ih (n - 1) h

/-- C5: the Process Lock follows the reentrant state machine — an acquire
by the owning process increments the count and returns immediately
(without consulting the OS primitive); a release with count above one
only decrements; a release at count one (or below) returns the record to
idle with the OS lock released and the handle closed; and every balanced
sequence of acquire/release calls within one uncontended process ends
back at the idle record. -/
theorem lock_reentrant_state_machine (pid : Nat) :
    (∀ b (r : LockRecord), r.ownerPid = some pid →
      tryAcquire pid b r = some { r with lockCount := r.lockCount + 1 }) ∧
    (∀ r : LockRecord, 1 < r.lockCount →
      releaseLock r = { r with lockCount := r.lockCount - 1 }) ∧
    (∀ r : LockRecord, r.lockCount ≤ 1 →
      releaseLock r = idleRecord ∧ (releaseLock r).handleOpen = false ∧
        (releaseLock r).ownerPid = none) ∧
    (∀ ops, balancedFrom 0 ops = true →
      runLockOps pid idleRecord ops = idleRecord) := by
  refine ⟨fun b r hr => ?_, fun r hr => ?_, fun r hr => ?_, fun ops h => ?_⟩
  · simp [tryAcquire, hr]
  · simp [releaseLock, hr]
  · have hle : ¬ (1 < r.lockCount) := by omega
    simp [releaseLock, hle, idleRecord]
  · have h0 : heldState pid 0 = idleRecord := by simp [heldState]
    rw [← h0]
    exact runLockOps_balancedFrom pid ops 0 h

/-- Witness for the lock state machine at process id 7: a reentrant
acquire at count 2, releases at counts 3 and 1, and the balanced trace
acquire-acquire-release-release from idle. -/
theorem lock_reentrant_state_machine_witness :
    tryAcquire 7 true { ownerPid := some 7, lockCount := 2, handleOpen := true } =
      some { ownerPid := some 7, lockCount := 3, handleOpen := true } ∧
    releaseLock { ownerPid := some 7, lockCount := 3, handleOpen := true } =
      { ownerPid := some 7, lockCount := 2, handleOpen := true } ∧
    releaseLock { ownerPid := some 7, lockCount := 1, handleOpen := true } =
      idleRecord ∧
    runLockOps 7 idleRecord [.acq, .acq, .rel, .rel] = idleRecord := by
  have h := lock_reentrant_state_machine 7
  exact ⟨h.1 true _ rfl, h.2.1 _ (by decide), (h.2.2.1 _ (by decide)).1,
    h.2.2.2 [.acq, .acq, .rel, .rel] (by decide)⟩

/-- Occurrence of one character list inside another at any position. -/
def chContainsSub (needle : List Char) : List Char → Bool
  | [] => needle.isPrefixOf []
  | c :: t => needle.isPrefixOf (c :: t) || chContainsSub needle t

/-- Substring containment: the Python `in` operator on strings. -/
def pyContains (hay needle : String) : Bool :=
  chContainsSub needle.toList hay.toList

/-- Python `str.strip`: drop whitespace from both ends. -/
def pyStrip (s : String) : String :=
  String.mk
    (((s.toList.dropWhile Char.isWhitespace).reverse.dropWhile
      Char.isWhitespace).reverse)

/-- Python `str.lower` for ASCII letters. -/
def pyLower (s : String) : String :=
  String.mk (s.toList.map (fun c =>
    if 'A' ≤ c && c ≤ 'Z' then Char.ofNat (c.toNat + 32) else c))

/-- One conflict entry as reported by `conflict_report`. -/
structure SyncConflict where
  path : List String
  status : String
deriving DecidableEq, Repr

/-- First two characters of a porcelain status line (`line[:2]`). -/
def lineCode (l : String) : String := String.mk (l.toList.take 2)

/-- The relative path part of a porcelain status line (`line[3:]`). -/
def lineRel (l : String) : String := String.mk (l.toList.drop 3)

/-- Embedding of `GitSyncFileBackend.conflict_report`: scan the porcelain
status lines; a line shorter than three characters is skipped; a
two-letter code containing `U`, or equal to `AA` or `DD`, yields a
conflict whose path is the root joined with the line's relative path and
whose status is the stripped code. -/
def conflictReport (root : List String) (lines : List String) :
    List SyncConflict :=
  lines.filterMap (fun l =>
    if l.toList.length < 3 then none
    else
      let code := lineCode l
      if code.toList.contains 'U' || code == "AA" || code == "DD" then
        some { path := root ++ pathParts (lineRel l), status := pyStrip code }
      else none)

/-- Truthiness of `status --porcelain` output after `strip`: some line
carries non-whitespace. -/
def statusNonempty (lines : List String) : Bool :=
  lines.any (fun l => pyStrip l != "")

/-- Outcome environment for one push/pull invocation: the porcelain
status at entry, the return codes and stderr of each git subprocess the
engine may run, and the porcelain status observed after a failed merge.
Each code/stderr pair models the `CompletedProcess` of the corresponding
`_run_git` call. -/
structure GitEnv where
  statusLines : List String
  addCode : Nat
  addStderr : String
  diffCachedCode : Nat
  commitCode : Nat
  commitStderr : String
  pushCode : Nat
  pushStderr : String
  pushUpCode : Nat
  pushUpStderr : String
  fetchCode : Nat
  fetchStderr : String
  revParseCode : Nat
  mergeCode : Nat
  mergeStderr : String
  mergeStatusLines : List String
deriving Repr

/-- The git subprocess invocations the sync engine can issue. -/
inductive GitCmd
  | statusPorcelain
  | addAll
  | diffCachedQuiet
  | commit (msg : String)
  | pushOrigin
  | pushSetUpstream
  | fetchOrigin
  | revParseVerify
  | mergeNoEdit
  | addPath (rel : String)
deriving DecidableEq, Repr

/-- The message `_run_git` raises on a checked failure: the stripped
stderr, or the fallback when it is empty. -/
def errMsg (stderr fallback : String) : String :=
  if pyStrip stderr = "" then fallback else pyStrip stderr

/-- The push step of `GitSyncFileBackend.push`: push the branch, and when
the remote reports "has no upstream branch" retry once with
`--set-upstream`; any remaining failure surfaces with the newest stripped
stderr. -/
def pushPhase (tr : List GitCmd) (env : GitEnv) :
    List GitCmd × Except Err Unit :=
  if env.pushCode ≠ 0 then
    if pyContains (pyStrip env.pushStderr) "has no upstream branch" = true then
      if env.pushUpCode ≠ 0 then
        (tr ++ [.pushOrigin, .pushSetUpstream],
          .error (.syncError (errMsg env.pushUpStderr "Failed to push to remote")))
      else (tr ++ [.pushOrigin, .pushSetUpstream], .ok ())
    else
      (tr ++ [.pushOrigin],
        .error (.syncError (errMsg env.pushStderr "Failed to push to remote")))
  else (tr ++ [.pushOrigin], .ok ())

/-- Embedding of `GitSyncFileBackend.push`: refuse when conflicts are
outstanding (`_ensure_no_conflicts` runs one `status --porcelain`); stage
everything with `add --all`; detect staged changes with
`diff --cached --quiet`; commit only then, with the caller's message or
"Sync changes", tolerating a commit failure whose lowered stderr contains
"nothing to commit"; finally run the push step.  Returns the trace of git
invocations and the outcome. -/
def gitPush (root : List String) (env : GitEnv) (message : Option String) :
    List GitCmd × Except Err Unit :=
  if conflictReport root env.statusLines ≠ [] then
    ([.statusPorcelain],
      .error (.syncError "Resolve outstanding conflicts before continuing"))
  else if env.addCode ≠ 0 then
    ([.statusPorcelain, .addAll],
      .error (.syncError (errMsg env.addStderr "git add --all failed")))
  else
    let commitMessage := message.getD "Sync changes"
    if env.diffCachedCode = 1 then
      if env.commitCode ≠ 0 ∧
          pyContains (pyLower (pyStrip env.commitStderr)) "nothing to commit" = false then
        ([.statusPorcelain, .addAll, .diffCachedQuiet, .commit commitMessage],
          .error (.syncError (errMsg env.commitStderr "Unable to commit local changes")))
      else
        pushPhase [.statusPorcelain, .addAll, .diffCachedQuiet,
          .commit commitMessage] env
    else
      pushPhase [.statusPorcelain, .addAll, .diffCachedQuiet] env

/-- Embedding of `GitSyncFileBackend.pull`: refuse on outstanding
conflicts or a dirty working tree (each check runs `status --porcelain`);
fetch the branch; when `rev-parse --verify` cannot see the remote ref,
succeed without merging; merge with no editor, and on failure report a
merge conflict when the post-merge conflict report is non-empty,
otherwise the merge stderr. -/
def gitPull (root : List String) (env : GitEnv) :
    List GitCmd × Except Err Unit :=
  if conflictReport root env.statusLines ≠ [] then
    ([.statusPorcelain],
      .error (.syncError "Resolve outstanding conflicts before continuing"))
  else if statusNonempty env.statusLines then
    ([.statusPorcelain, .statusPorcelain],
      .error (.syncError "Working tree has pending changes; push or stash first"))
  else if env.fetchCode ≠ 0 then
    ([.statusPorcelain, .statusPorcelain, .fetchOrigin],
      .error (.syncError (errMsg env.fetchStderr "git fetch origin failed")))
  else if env.revParseCode ≠ 0 then
    ([.statusPorcelain, .statusPorcelain, .fetchOrigin, .revParseVerify],
      .ok ())
  else if env.mergeCode ≠ 0 then
    if conflictReport root env.mergeStatusLines ≠ [] then
      ([.statusPorcelain, .statusPorcelain, .fetchOrigin, .revParseVerify,
          .mergeNoEdit, .statusPorcelain],
        .error (.syncError "Pull resulted in merge conflicts"))
    else
      ([.statusPorcelain, .statusPorcelain, .fetchOrigin, .revParseVerify,
          .mergeNoEdit, .statusPorcelain],
        .error (.syncError (errMsg env.mergeStderr "Failed to merge remote changes")))
  else
    ([.statusPorcelain, .statusPorcelain, .fetchOrigin, .revParseVerify,
        .mergeNoEdit],
      .ok ())

/-- The commit step lets execution continue: no commit was needed, the
commit succeeded, or its failure was the tolerated "nothing to commit". -/
def commitPhaseOk (env : GitEnv) : Prop :=
  env.diffCachedCode ≠ 1 ∨ env.commitCode = 0 ∨
    pyContains (pyLower (pyStrip env.commitStderr)) "nothing to commit" = true

/-- The push return code that finally counts: the retry's when the
no-upstream retry fired, the first push's otherwise. -/
def effectivePushCode (env : GitEnv) : Nat :=
  if env.pushCode ≠ 0 ∧
      pyContains (pyStrip env.pushStderr) "has no upstream branch" = true then
    env.pushUpCode
  else env.pushCode

theorem pushPhase_spec (tr : List GitCmd) (env : GitEnv) :
    ((pushPhase tr env).2 = .ok () ↔ effectivePushCode env = 0) ∧
    (GitCmd.pushSetUpstream ∈ (pushPhase tr env).1 ↔
      (GitCmd.pushSetUpstream ∈ tr ∨ (env.pushCode ≠ 0 ∧
        pyContains (pyStrip env.pushStderr) "has no upstream branch" = true))) ∧
    (effectivePushCode env ≠ 0 →
      ∃ s, (pushPhase tr env).2 = .error (.syncError s)) ∧
    (∀ m, GitCmd.commit m ∈ (pushPhase tr env).1 ↔ GitCmd.commit m ∈ tr) ∧
    GitCmd.pushOrigin ∈ (pushPhase tr env).1 := by
  unfold pushPhase effectivePushCode
  by_cases h1 : env.pushCode ≠ 0
  · by_cases h2 :
      pyContains (pyStrip env.pushStderr) "has no upstream branch" = true
    · by_cases h3 : env.pushUpCode ≠ 0
      · simp [h1, h2, h3]
      · simp [h1, h2, h3]
        omega
    · simp [h1, h2]
  · simp [h1]
    omega

/-- C6: push fails up front with `SyncError` when unresolved conflicts
exist (issuing no further git commands); otherwise, once staging
succeeded, it commits exactly when the staged index differs from HEAD,
using the caller's message or "Sync changes"; a commit failure whose
stderr reports "nothing to commit" is treated as success and the push
still runs, while any other commit failure surfaces as `SyncError`
without pushing; the push is retried with the upstream-setting variant
exactly when the remote reported "has no upstream branch", succeeds
exactly when the finally-counting push return code is zero, and any
remaining failure surfaces as `SyncError`. -/
theorem push_protocol (root : List String) (env : GitEnv)
    (message : Option String) (tr : List GitCmd) (res : Except Err Unit)
    (hrun : gitPush root env message = (tr, res)) :
    (conflictReport root env.statusLines ≠ [] →
      res = .error (.syncError "Resolve outstanding conflicts before continuing") ∧
      (∀ m, GitCmd.commit m ∉ tr) ∧ GitCmd.pushOrigin ∉ tr ∧
      GitCmd.pushSetUpstream ∉ tr) ∧
    (conflictReport root env.statusLines = [] → env.addCode = 0 →
      ((∃ m, GitCmd.commit m ∈ tr) ↔ env.diffCachedCode = 1) ∧
      (∀ m, GitCmd.commit m ∈ tr → m = message.getD "Sync changes") ∧
      (env.diffCachedCode = 1 → env.commitCode ≠ 0 →
        pyContains (pyLower (pyStrip env.commitStderr)) "nothing to commit" = true →
        GitCmd.pushOrigin ∈ tr) ∧
      (env.diffCachedCode = 1 → env.commitCode ≠ 0 →
        pyContains (pyLower (pyStrip env.commitStderr)) "nothing to commit" = false →
        res = .error (.syncError (errMsg env.commitStderr "Unable to commit local changes")) ∧
        GitCmd.pushOrigin ∉ tr) ∧
      (commitPhaseOk env →
        (GitCmd.pushSetUpstream ∈ tr ↔ (env.pushCode ≠ 0 ∧
          pyContains (pyStrip env.pushStderr) "has no upstream branch" = true)) ∧
        (res = .ok () ↔ effectivePushCode env = 0) ∧
        (effectivePushCode env ≠ 0 → ∃ s, res = .error (.syncError s)))) := by
  unfold gitPush at hrun
  by_cases hc : conflictReport root env.statusLines ≠ []
  · rw [if_pos hc] at hrun
    cases hrun
    refine ⟨fun _ => ⟨rfl, by simp, by simp, by simp⟩, fun hc2 _ => ?_⟩
    exact absurd hc2 hc
  · rw [if_neg hc] at hrun
    by_cases ha : env.addCode ≠ 0
    · rw [if_pos ha] at hrun
      cases hrun
      exact ⟨fun hcon => absurd hcon hc, fun _ ha0 => absurd ha0 ha⟩
    · rw [if_neg ha] at hrun
      refine ⟨fun hcon => absurd hcon hc, fun _ _ => ?_⟩
      by_cases hd : env.diffCachedCode = 1
      · rw [if_pos hd] at hrun
        by_cases hcm : env.commitCode ≠ 0 ∧
          pyContains (pyLower (pyStrip env.commitStderr)) "nothing to commit" = false
        · rw [if_pos hcm] at hrun
          cases hrun
          refine ⟨by simp [hd], by simp, fun _ _ htol => ?_, fun _ _ _ => ⟨rfl, by simp⟩,
            fun hok => ?_⟩
          · rw [htol] at hcm
            exact absurd hcm (by simp)
          · rcases hok with h | h | h
            · exact absurd hd h
            · exact absurd h hcm.1
            · rw [h] at hcm
              exact absurd hcm (by simp)
        · rw [if_neg hcm] at hrun
          have hps := pushPhase_spec [.statusPorcelain, .addAll, .diffCachedQuiet,
            .commit (message.getD "Sync changes")] env
          rw [hrun] at hps
          refine ⟨?_, ?_, fun _ _ _ => hps.2.2.2.2, fun _ hc0 hf => ?_, fun _ => ?_⟩
          · constructor
            · intro _; exact hd
            · intro _
              exact ⟨message.getD "Sync changes", (hps.2.2.2.1 _).mpr (by simp)⟩
          · intro m hm
            have := (hps.2.2.2.1 m).mp hm
            simp at this
            exact this
          · exact absurd ⟨hc0, hf⟩ hcm
          · refine ⟨?_, hps.1, hps.2.2.1⟩
            rw [hps.2.1]
            simp
      · rw [if_neg hd] at hrun
        have hps := pushPhase_spec [.statusPorcelain, .addAll, .diffCachedQuiet] env
        rw [hrun] at hps
        refine ⟨?_, ?_, fun hd1 _ _ => absurd hd1 hd, fun hd1 _ _ => absurd hd1 hd,
          fun _ => ?_⟩
        · constructor
          · rintro ⟨m, hm⟩
            have := (hps.2.2.2.1 m).mp hm
            simp at this
          · intro hd1; exact absurd hd1 hd
        · intro m hm
          have := (hps.2.2.2.1 m).mp hm
          simp at this
        · refine ⟨?_, hps.1, hps.2.2.1⟩
          rw [hps.2.1]
          simp

/-- A concrete push environment: clean status, staged changes, successful
commit, first push failing with a no-upstream report, retry succeeding. -/
def pushEnvDemo : GitEnv where
  statusLines := []
  addCode := 0
  addStderr := ""
  diffCachedCode := 1
  commitCode := 0
  commitStderr := ""
  pushCode := 1
  pushStderr := "fatal: The current branch main has no upstream branch"
  pushUpCode := 0
  pushUpStderr := ""
  fetchCode := 0
  fetchStderr := ""
  revParseCode := 0
  mergeCode := 0
  mergeStderr := ""
  mergeStatusLines := []

/-- Witness for the push protocol: in `pushEnvDemo` the upstream-setting
retry fires and the push succeeds; the commit used the caller's
message. -/
theorem push_protocol_witness :
    GitCmd.pushSetUpstream ∈ (gitPush ["r"] pushEnvDemo (some "msg")).1 ∧
    (gitPush ["r"] pushEnvDemo (some "msg")).2 = .ok () ∧
    GitCmd.commit "msg" ∈ (gitPush ["r"] pushEnvDemo (some "msg")).1 := by
  have h := (push_protocol ["r"] pushEnvDemo (some "msg")
    (gitPush ["r"] pushEnvDemo (some "msg")).1
    (gitPush ["r"] pushEnvDemo (some "msg")).2 rfl).2 rfl rfl
  have hok : commitPhaseOk pushEnvDemo := Or.inr (Or.inl rfl)
  refine ⟨(h.2.2.2.2 hok).1.mpr ⟨by decide, by decide⟩,
    (h.2.2.2.2 hok).2.1.mpr (by decide), by decide⟩

/-- C7: pull fails with `SyncError` when unresolved conflicts exist or
the working tree is not clean, before fetching or merging anything; when
the preconditions hold and the remote ref does not verify after the
fetch, it completes successfully without merging; and when the merge
fails with a non-empty conflict report it fails with `SyncError`, issuing
no git command after the merge other than the status query — the working
tree stays as the merge left it. -/
theorem pull_protocol (root : List String) (env : GitEnv)
    (tr : List GitCmd) (res : Except Err Unit)
    (hrun : gitPull root env = (tr, res)) :
    (conflictReport root env.statusLines ≠ [] →
      tr = [.statusPorcelain] ∧
      res = .error (.syncError "Resolve outstanding conflicts before continuing")) ∧
    (conflictReport root env.statusLines = [] →
      statusNonempty env.statusLines = true →
      tr = [.statusPorcelain, .statusPorcelain] ∧
      res = .error (.syncError "Working tree has pending changes; push or stash first")) ∧
    (conflictReport root env.statusLines = [] →
      statusNonempty env.statusLines = false →
      env.fetchCode = 0 → env.revParseCode ≠ 0 →
      tr = [.statusPorcelain, .statusPorcelain, .fetchOrigin, .revParseVerify] ∧
      res = .ok () ∧ GitCmd.mergeNoEdit ∉ tr) ∧
    (conflictReport root env.statusLines = [] →
      statusNonempty env.statusLines = false →
      env.fetchCode = 0 → env.revParseCode = 0 → env.mergeCode ≠ 0 →
      conflictReport root env.mergeStatusLines ≠ [] →
      tr = [.statusPorcelain, .statusPorcelain, .fetchOrigin, .revParseVerify,
        .mergeNoEdit, .statusPorcelain] ∧
      res = .error (.syncError "Pull resulted in merge conflicts")) := by
  unfold gitPull at hrun
  by_cases hc : conflictReport root env.statusLines ≠ []
  · rw [if_pos hc] at hrun
    cases hrun
    exact ⟨fun _ => ⟨rfl, rfl⟩, fun h _ => absurd h hc,
      fun h _ _ _ => absurd h hc, fun h _ _ _ _ _ => absurd h hc⟩
  · rw [if_neg hc] at hrun
    by_cases hs : statusNonempty env.statusLines = true
    · rw [if_pos hs] at hrun
      cases hrun
      refine ⟨fun h => absurd h hc, fun _ _ => ⟨rfl, rfl⟩,
        fun _ hs0 _ _ => ?_, fun _ hs0 _ _ _ _ => ?_⟩ <;> simp [hs] at hs0
    · rw [if_neg hs] at hrun
      by_cases hf : env.fetchCode ≠ 0
      · rw [if_pos hf] at hrun
        cases hrun
        exact ⟨fun h => absurd h hc, fun _ hs0 => absurd hs0 hs,
          fun _ _ hf0 _ => absurd hf0 hf, fun _ _ hf0 _ _ _ => absurd hf0 hf⟩
      · rw [if_neg hf] at hrun
        by_cases hrv : env.revParseCode ≠ 0
        · rw [if_pos hrv] at hrun
          cases hrun
          exact ⟨fun h => absurd h hc, fun _ hs0 => absurd hs0 hs,
            fun _ _ _ _ => ⟨rfl, rfl, by simp⟩,
            fun _ _ _ hrv0 _ _ => absurd hrv0 hrv⟩
        · rw [if_neg hrv] at hrun
          by_cases hm : env.mergeCode ≠ 0
          · rw [if_pos hm] at hrun
            by_cases hcr : conflictReport root env.mergeStatusLines ≠ []
            · rw [if_pos hcr] at hrun
              cases hrun
              exact ⟨fun h => absurd h hc, fun _ hs0 => absurd hs0 hs,
                fun _ _ _ h4 => absurd h4 hrv, fun _ _ _ _ _ _ => ⟨rfl, rfl⟩⟩
            · rw [if_neg hcr] at hrun
              cases hrun
              exact ⟨fun h => absurd h hc, fun _ hs0 => absurd hs0 hs,
                fun _ _ _ h4 => absurd h4 hrv,
                fun _ _ _ _ _ h6 => absurd h6 hcr⟩
          · rw [if_neg hm] at hrun
            cases hrun
            exact ⟨fun h => absurd h hc, fun _ hs0 => absurd hs0 hs,
              fun _ _ _ h4 => absurd h4 hrv, fun _ _ _ _ h5 _ => absurd h5 hm⟩

/-- A concrete pull environment whose merge fails leaving a conflicted
path. -/
def pullEnvConflict : GitEnv :=
  { pushEnvDemo with mergeCode := 1, mergeStatusLines := ["UU x.txt"] }

/-- Witness for the pull protocol: with a verifying fetch but no remote
ref the pull succeeds without merging, and with a conflicting merge it
fails with the merge-conflict error. -/
theorem pull_protocol_witness :
    ((gitPull ["r"] { pushEnvDemo with revParseCode := 1 }).1 =
      [.statusPorcelain, .statusPorcelain, .fetchOrigin, .revParseVerify] ∧
     (gitPull ["r"] { pushEnvDemo with revParseCode := 1 }).2 = .ok () ∧
     GitCmd.mergeNoEdit ∉ (gitPull ["r"] { pushEnvDemo with revParseCode := 1 }).1) ∧
    (gitPull ["r"] pullEnvConflict).2 =
      .error (.syncError "Pull resulted in merge conflicts") := by
  constructor
  · exact (pull_protocol ["r"] { pushEnvDemo with revParseCode := 1 }
      (gitPull ["r"] { pushEnvDemo with revParseCode := 1 }).1
      (gitPull ["r"] { pushEnvDemo with revParseCode := 1 }).2 rfl).2.2.1
      rfl rfl rfl (by decide)
  · exact ((pull_protocol ["r"] pullEnvConflict
      (gitPull ["r"] pullEnvConflict).1
      (gitPull ["r"] pullEnvConflict).2 rfl).2.2.2
      rfl rfl rfl rfl (by decide) (by decide)).2

/-- Outcome of one sync session: the session flag after exit and the
result surfaced to the caller. -/
structure SessionOutcome where
  inSessionAfter : Bool
  result : Except Err Unit
deriving DecidableEq, Repr

/-- Embedding of the control flow of `GitSyncFileBackend.sync_session`
(`git_backend.py`): under the process lock the flag `_in_session` is set,
the try block runs the optional entry pull and then the session body, and
the finally block runs the optional exit push **before** the statement
`self._in_session = False`.  An exception raised by that push therefore
aborts the finally block and skips the flag reset (the lock itself is
still released by the enclosing with-statement).  The boolean parameters
say whether the entry pull, the body, and the exit push run without
raising. -/
def runSyncSession (autoPull autoPush pullOk bodyOk pushOk : Bool) :
    SessionOutcome :=
  let pullFails := autoPull && !pullOk
  let bodyFails := !pullFails && !bodyOk
  if autoPush && !pushOk then
    { inSessionAfter := true, result := .error (.syncError "push failed") }
  else
    { inSessionAfter := false,
      result :=
        if pullFails then .error (.syncError "pull failed")
        else if bodyFails then .error (.syncError "body failed")
        else .ok () }

/-- C2 (code bug): with auto-push enabled, a session whose body completes
but whose exit push raises leaves the session flag set — the reset line
sits after the push call inside the same finally block and is skipped.
When the exit push does not raise (here: push succeeds, and also when it
succeeds after a failing body) the flag is cleared. -/
theorem sync_session_flag_stuck_on_push_failure :
    (runSyncSession false true true true false).inSessionAfter = true ∧
    (runSyncSession false true true true false).result =
      .error (.syncError "push failed") ∧
    (runSyncSession false true true true true).inSessionAfter = false ∧
    (runSyncSession true true true false true).inSessionAfter = false ∧
    (runSyncSession false false true true false).inSessionAfter = false := by
  exact ⟨rfl, rfl, rfl, rfl, rfl⟩

/-- Embedding of `GitSyncFileBackend._relative_path`: interpret the input
against the working-tree root (an absolute input stands alone), resolve
it, and require containment in the root, failing with `PathOutsideRoot`;
the result is the component list of `candidate.relative_to(root)`. -/
def relativePath (res : List String → List String) (ctx : RootCtx)
    (p : String) : Except Err (List String) :=
  let cand := res (if pyStartsWith p "/" then pathParts p
                   else ctx.root ++ pathParts p)
  if ctx.root.isPrefixOf cand then .ok (cand.drop ctx.root.length)
  else .error (.invalidOperation .pathOutsideRoot)

/-- Join relative components back into the POSIX string
(`relative.as_posix()`). -/
def joinComponents : List String → String
  | [] => ""
  | [c] => c
  | c :: rest => c ++ "/" ++ joinComponents rest

/-- Embedding of `GitSyncFileBackend.update`: delegate to the local
backend's update, then — when auto-push is enabled and no session is
active — run `push` with the message `Update <path>`.  The porcelain
status in `env` is the one the embedded push observes; overwriting the
bytes of an unmerged file does not change its two-letter conflict code,
so one status snapshot serves the call. -/
def gitUpdate (res : List String → List String) (ctx : RootCtx)
    (autoPush inSession : Bool) (env : GitEnv) (fs : FS) (p : String)
    (data : List Nat) (append : Bool) :
    FS × List GitCmd × Except Err FileInfo :=
  match localUpdate res ctx fs p data append with
  | (fs1, .error e) => (fs1, [], .error e)
  | (fs1, .ok i) =>
    if autoPush && !inSession then
      match gitPush ctx.root env (some ("Update " ++ p)) with
      | (tr, .error e) => (fs1, tr, .error e)
      | (tr, .ok _) => (fs1, tr, .ok i)
    else (fs1, [], .ok i)

/-- Embedding of `GitSyncFileBackend.conflict_resolve`: compute the
relative path, require it to appear in the conflict report
(`_assert_conflicted` compares resolved absolute paths, issuing one
status query), overwrite the file through the engine's own `update`
(which may auto-push), and only then stage the path. -/
def conflictResolve (res : List String → List String) (ctx : RootCtx)
    (autoPush inSession : Bool) (env : GitEnv) (fs : FS) (p : String)
    (data : List Nat) : FS × List GitCmd × Except Err Unit :=
  match relativePath res ctx p with
  | .error e => (fs, [], .error e)
  | .ok rel =>
    let relStr := joinComponents rel
    let absolute := res (ctx.root ++ pathParts relStr)
    let conflictPaths :=
      (conflictReport ctx.root env.statusLines).map (fun c => res c.path)
    if absolute ∈ conflictPaths then
      match gitUpdate res ctx autoPush inSession env fs relStr data false with
      | (fs1, tr, .error e) => (fs1, .statusPorcelain :: tr, .error e)
      | (fs1, tr, .ok _) =>
        (fs1, .statusPorcelain :: (tr ++ [.addPath relStr]), .ok ())
    else
      (fs, [.statusPorcelain],
        .error (.syncError (relStr ++ " is not currently conflicted")))

/-- A push environment whose porcelain status reports a both-deleted
conflict on `x.txt`. -/
def ddEnv : GitEnv := { pushEnvDemo with statusLines := ["DD x.txt"] }

/-- A push environment whose porcelain status reports a both-modified
conflict on `x.txt`. -/
def uuEnv : GitEnv := { pushEnvDemo with statusLines := ["UU x.txt"] }

/-- Counterexample to C9: on a `DD` (both deleted) conflict the path is
in the conflict report but no working-tree file exists, so
`conflict_resolve` raises `NotFound` from the embedded update — not
`SyncError` — and writes nothing. -/
theorem conflict_resolve_dd_cex :
    conflictResolve resolveDotDot sampleCtx true false ddEnv sampleFs
      "x.txt" [5] = (sampleFs, [.statusPorcelain], .error .notFound) := by
  decide

/-- C9 amended: with auto-push enabled and no session active,
`conflict_resolve` on a conflicted path whose file exists in the working
tree always raises `SyncError` before it can stage the resolution — the
embedded update succeeds locally and triggers an auto-push whose
no-unresolved-conflicts precondition fails because the path is still
unmerged — yet the file's content has already been overwritten with the
new data when the error propagates.  (On a conflicted path with no
working-tree file, such as a both-deleted conflict, the update raises
`NotFound` instead and nothing is written.) -/
theorem conflict_resolve_autopush_overwrites_then_fails
    (res : List String → List String) (ctx : RootCtx) (env : GitEnv)
    (fs : FS) (p : String) (data : List Nat) (rel : List String)
    (t : List String) (cbytes : List Nat)
    (hrel : relativePath res ctx p = .ok rel)
    (hassert : res (ctx.root ++ pathParts (joinComponents rel)) ∈
      (conflictReport ctx.root env.statusLines).map (fun c => res c.path))
    (hens : ensureWithinRoot res ctx (joinComponents rel) = .ok t)
    (hfile : fsLookup fs t = some (.file cbytes)) :
    conflictResolve res ctx true false env fs p data =
      (fsSet fs t (.file data), [.statusPorcelain, .statusPorcelain],
        .error (.syncError "Resolve outstanding conflicts before continuing")) ∧
    GitCmd.addPath (joinComponents rel) ∉
      ([.statusPorcelain, .statusPorcelain] : List GitCmd) ∧
    fsLookup (fsSet fs t (.file data)) t = some (.file data) := by
  have hne : conflictReport ctx.root env.statusLines ≠ [] := by
    intro h0
    rw [h0] at hassert
    simp at hassert
  have hupd : localUpdate res ctx fs (joinComponents rel) data false =
      (fsSet fs t (.file data), .ok (mkFileInfo t (.file data))) := by
    simp [localUpdate, hens, hfile, fileContentAt, infoAt, fsLookup_fsSet_self]
  refine ⟨?_, by simp, fsLookup_fsSet_self fs t _⟩
  simp only [conflictResolve, hrel]
  rw [if_pos hassert]
  simp only [gitUpdate, hupd, Bool.and_self, Bool.not_false]
  simp only [gitPush, if_pos hne]
  rfl

/-- Witness for the amended C9 theorem: a `UU` conflict on `x.txt` whose
working file holds `[1]`; resolving with `[5]` overwrites the file and
then fails with the push's conflicts error, without staging. -/
theorem conflict_resolve_autopush_witness :
    conflictResolve resolveDotDot sampleCtx true false uuEnv
      [(["r"], .dir), (["r", "x.txt"], .file [1])] "x.txt" [5] =
      (fsSet [(["r"], .dir), (["r", "x.txt"], .file [1])] ["r", "x.txt"]
          (.file [5]),
        [.statusPorcelain, .statusPorcelain],
        .error (.syncError "Resolve outstanding conflicts before continuing")) ∧
    GitCmd.addPath (joinComponents ["x.txt"]) ∉
      ([.statusPorcelain, .statusPorcelain] : List GitCmd) ∧
    fsLookup (fsSet [(["r"], .dir), (["r", "x.txt"], .file [1])]
        ["r", "x.txt"] (.file [5])) ["r", "x.txt"] = some (.file [5]) := by
  exact conflict_resolve_autopush_overwrites_then_fails resolveDotDot
    sampleCtx uuEnv [(["r"], .dir), (["r", "x.txt"], .file [1])] "x.txt" [5]
    ["x.txt"] ["r", "x.txt"] [1] (by decide) (by decide) (by decide) (by decide)

end F9
